import Mathlib

/-!
# Position Ledger verification

Shallow embedding of the order-to-holdings reconciliation workflow of the
Express/MongoDB backend (the `/newOrder`, `/order/:id/confirm`,
`/order/:id/reject` and `/repair-holdings` handlers together with the
`updateHoldings` helper).

Modelling choices:
* MongoDB collections become Lean lists; `findOne` is `List.find?` on the
  natural key, `save` on an existing document replaces it in place, creating
  a new document appends, `deleteOne` removes the documents with the key.
* JavaScript numbers become `ℚ` (all arithmetic in the handlers is
  `+ - * /`, exact on the rationals).
* The JavaScript truthiness test `!x` used by `updateHoldings` for its
  validation becomes `= ""` for strings and `= 0` for numbers.
* A thrown exception becomes `Except.error`; HTTP response variants become
  small result inductives.
-/

/-- JavaScript's `s.toUpperCase()`, written character by character (ASCII,
which covers every symbol the backend handles) so that it evaluates by
kernel reduction. -/
def upperStr (s : String) : String :=
  ⟨s.data.map Char.toUpper⟩

/-- JavaScript's `s.toLowerCase()`, written character by character. -/
def lowerStr (s : String) : String :=
  ⟨s.data.map Char.toLower⟩

/-- A document of the Holdings collection: `name` is the natural key
(stored uppercased), `qty` the held quantity, `avg` the average cost and
`price` the last written market price.  The cosmetic `net`/`day` strings of
the schema carry no logic and are omitted. -/
structure Holding where
  name : String
  qty : ℚ
  avg : ℚ
  price : ℚ
  deriving Repr, DecidableEq

/-- A document of the Orders collection (`OrdersSchema`); `oid` stands for
the Mongo `_id`. -/
structure Order where
  oid : Nat
  name : String
  qty : ℚ
  price : ℚ
  mode : String
  is_voice_order : Bool
  is_simulated : Bool
  status : String
  deriving Repr, DecidableEq

/-- `HoldingsModel.findOne({ name: n })`. -/
def findHolding (hs : List Holding) (n : String) : Option Holding :=
  hs.find? (fun h => h.name == n)

/-- `existingHolding.save()`: replace the documents whose key matches the
saved document's key. -/
def saveHolding (hs : List Holding) (h : Holding) : List Holding :=
  hs.map (fun x => if x.name == h.name then h else x)

/-- `HoldingsModel.deleteOne({ name: n })` (the key is unique per holding). -/
def deleteHolding (hs : List Holding) (n : String) : List Holding :=
  hs.filter (fun x => x.name != n)

/-- The `updateHoldings(name, qty, price, mode)` helper of the backend.
Returns the updated collection together with the returned holding
(`none` models its `return null` paths); `Except.error` models a `throw`. -/
def updateHoldings (hs : List Holding) (name : String) (qty price : ℚ)
    (mode : String) : Except String (List Holding × Option Holding) :=
  if name = "" ∨ qty = 0 ∨ price = 0 ∨ mode = "" then
    .error "Invalid parameters"
  else
    let stockName := upperStr name
    let orderMode := lowerStr mode
    if orderMode = "buy" then
      match findHolding hs stockName with
      | some existingHolding =>
        let totalQty := existingHolding.qty + qty
        let totalCost := existingHolding.avg * existingHolding.qty + price * qty
        let newAvg := totalCost / totalQty
        let updated : Holding := ⟨existingHolding.name, totalQty, newAvg, price⟩
        .ok (saveHolding hs updated, some updated)
      | none =>
        let newHolding : Holding := ⟨stockName, qty, price, price⟩
        .ok (hs ++ [newHolding], some newHolding)
    else if orderMode = "sell" then
      match findHolding hs stockName with
      | some existingHolding =>
        let newQty := existingHolding.qty - qty
        if newQty ≤ 0 then
          .ok (deleteHolding hs stockName, none)
        else
          let updated : Holding :=
            ⟨existingHolding.name, newQty, existingHolding.avg, existingHolding.price⟩
          .ok (saveHolding hs updated, some updated)
      | none =>
        .ok (hs, none)
    else
      .error "Invalid mode"

/-- The server's state: the two MongoDB collections. -/
structure ServerState where
  orders : List Order
  holdings : List Holding
  deriving Repr, DecidableEq

/-- `OrdersModel.findById(id)`. -/
def findOrder (os : List Order) (i : Nat) : Option Order :=
  os.find? (fun o => o.oid == i)

/-- `order.status = st` on one order record. -/
def withStatus (o : Order) (st : String) : Order :=
  ⟨o.oid, o.name, o.qty, o.price, o.mode, o.is_voice_order, o.is_simulated, st⟩

/-- `order.status = st; order.save()` for the order(s) with id `i`. -/
def setOrderStatus (os : List Order) (i : Nat) (st : String) : List Order :=
  os.map (fun o => if o.oid == i then withStatus o st else o)

/-- Response of `POST /newOrder`: `ok` is the 200 response (carrying
`needsConfirmation`), `warn` the 500 "Order placed but holdings update
failed" response (the order stays saved). -/
inductive PlaceResult where
  | ok (needsConfirmation : Bool)
  | warn (err : String)
  deriving Repr, DecidableEq

/-- The `POST /newOrder` handler: persist the order (status decided by
`is_voice_order || is_simulated`), then update holdings synchronously for
manual orders only. -/
def placeOrder (s : ServerState) (i : Nat) (name : String) (qty price : ℚ)
    (mode : String) (is_voice_order is_simulated : Bool) :
    ServerState × PlaceResult :=
  let needsConfirmation := is_voice_order || is_simulated
  let newOrder : Order :=
    ⟨i, name, qty, price, mode, is_voice_order, is_simulated,
      if needsConfirmation then "pending" else "executed"⟩
  let s1 : ServerState := ⟨s.orders ++ [newOrder], s.holdings⟩
  if needsConfirmation then
    (s1, .ok true)
  else
    match updateHoldings s1.holdings name qty price mode with
    | .ok r => (⟨s1.orders, r.1⟩, .ok false)
    | .error e => (s1, .warn e)

/-- Response of `POST /order/:id/confirm`: 404, 400 "already executed",
500 from a holdings exception, 500 from the post-update verification, or
200. -/
inductive ConfirmResult where
  | ok
  | notFound
  | alreadyExecuted
  | holdingsFailed (e : String)
  | verifyFailed
  deriving Repr, DecidableEq

/-- The `POST /order/:id/confirm` handler. -/
def confirmOrder (s : ServerState) (i : Nat) : ServerState × ConfirmResult :=
  match findOrder s.orders i with
  | none => (s, .notFound)
  | some order =>
    if order.status = "executed" then
      (s, .alreadyExecuted)
    else
      match updateHoldings s.holdings order.name order.qty order.price order.mode with
      | .error e => (s, .holdingsFailed e)
      | .ok r =>
        if lowerStr order.mode = "buy" ∧ findHolding r.1 (upperStr order.name) = none then
          (⟨s.orders, r.1⟩, .verifyFailed)
        else
          (⟨setOrderStatus s.orders i "executed", r.1⟩, .ok)

/-- Response of `POST /order/:id/reject`. -/
inductive RejectResult where
  | ok
  | notFound
  | alreadyExecuted
  deriving Repr, DecidableEq

/-- The `POST /order/:id/reject` handler. -/
def rejectOrder (s : ServerState) (i : Nat) : ServerState × RejectResult :=
  match findOrder s.orders i with
  | none => (s, .notFound)
  | some order =>
    if order.status = "executed" then
      (s, .alreadyExecuted)
    else
      (⟨setOrderStatus s.orders i "rejected", s.holdings⟩, .ok)

/-- The `/repair-holdings` query filter: `status: "executed"` with
case-insensitive mode match `/^buy$/i`. -/
def isExecutedBuy (o : Order) : Bool :=
  o.status == "executed" && lowerStr o.mode == "buy"

/-- `OrdersModel.find({ status: "executed", mode: /^buy$/i })` in creation
order. -/
def executedBuyOrders (os : List Order) : List Order :=
  os.filter isExecutedBuy

/-- One iteration of the `/repair-holdings` loop: skip if a holding exists
for the order's instrument, otherwise run `updateHoldings` and count the
fix on success (a thrown error is caught and only recorded). -/
def repairStep (acc : List Holding × Nat) (o : Order) : List Holding × Nat :=
  match findHolding acc.1 (upperStr o.name) with
  | some _ => acc
  | none =>
    match updateHoldings acc.1 o.name o.qty o.price o.mode with
    | .ok r => (r.1, acc.2 + 1)
    | .error _ => acc

/-- The `GET /repair-holdings` handler; returns the new state and the
reported `fixed` count. -/
def repairHoldings (s : ServerState) : ServerState × Nat :=
  let r := (executedBuyOrders s.orders).foldl repairStep (s.holdings, 0)
  (⟨s.orders, r.1⟩, r.2)

/-- Applying one executed order to the holdings through the aggregator,
keeping the holdings unchanged on error: one step of the incremental fold. -/
def applyExecuted (hs : List Holding) (o : Order) : List Holding :=
  match updateHoldings hs o.name o.qty o.price o.mode with
  | .ok r => r.1
  | .error _ => hs

/-- The incremental fold of a sequence of executed orders from the empty
holdings state. -/
def foldExecuted (os : List Order) : List Holding :=
  os.foldl applyExecuted []

/-- The parameter validation of `updateHoldings` as one proposition
(`!name || !qty || !price || !mode` in the source). -/
def invalidParams (name : String) (qty price : ℚ) (mode : String) : Prop :=
  name = "" ∨ qty = 0 ∨ price = 0 ∨ mode = ""

/-- One observable status transition of a stored order: unchanged, or a
move into EXECUTED or REJECTED from a non-EXECUTED state.  EXECUTED is
terminal under this relation. -/
def statusStep (old new : String) : Prop :=
  new = old ∨ (old ≠ "executed" ∧ (new = "executed" ∨ new = "rejected"))

/-- An order the repair loop will leave alone: its instrument already has a
holding, or the aggregator rejects the order's parameters outright (in
which case the loop catches the error and fixes nothing). -/
def repairSettled (hs : List Holding) (o : Order) : Prop :=
  (findHolding hs (upperStr o.name)).isSome ∨
    invalidParams o.name o.qty o.price o.mode

deriving instance DecidableEq for Except

/-! ## Branch lemmas for the aggregator

One lemma per control-flow path of `updateHoldings`, used by all the
claim proofs below. -/

theorem updateHoldings_invalid (hs : List Holding) (name : String)
    (qty price : ℚ) (mode : String) (h : invalidParams name qty price mode) :
    updateHoldings hs name qty price mode = .error "Invalid parameters" := by
  unfold invalidParams at h
  simp only [updateHoldings, if_pos h]

theorem lowerStr_ne_empty {mode target : String} (hm : lowerStr mode = target)
    (ht : target ≠ "") : mode ≠ "" := by
  intro h
  rw [h] at hm
  exact ht (hm ▸ rfl)

theorem updateHoldings_buy_existing (hs : List Holding) (name : String)
    (qty price : ℚ) (mode : String) (ex : Holding)
    (hn : name ≠ "") (hq : qty ≠ 0) (hp : price ≠ 0)
    (hm : lowerStr mode = "buy")
    (hf : findHolding hs (upperStr name) = some ex) :
    updateHoldings hs name qty price mode =
      .ok (saveHolding hs ⟨ex.name, ex.qty + qty,
             (ex.avg * ex.qty + price * qty) / (ex.qty + qty), price⟩,
           some ⟨ex.name, ex.qty + qty,
             (ex.avg * ex.qty + price * qty) / (ex.qty + qty), price⟩) := by
  have hm0 : mode ≠ "" := lowerStr_ne_empty hm (by decide)
  simp [updateHoldings, hm, hf, hn, hq, hp, hm0]

theorem updateHoldings_buy_new (hs : List Holding) (name : String)
    (qty price : ℚ) (mode : String)
    (hn : name ≠ "") (hq : qty ≠ 0) (hp : price ≠ 0)
    (hm : lowerStr mode = "buy")
    (hf : findHolding hs (upperStr name) = none) :
    updateHoldings hs name qty price mode =
      .ok (hs ++ [⟨upperStr name, qty, price, price⟩],
           some ⟨upperStr name, qty, price, price⟩) := by
  have hm0 : mode ≠ "" := lowerStr_ne_empty hm (by decide)
  simp [updateHoldings, hm, hf, hn, hq, hp, hm0]

theorem updateHoldings_sell_delete (hs : List Holding) (name : String)
    (qty price : ℚ) (mode : String) (ex : Holding)
    (hn : name ≠ "") (hq : qty ≠ 0) (hp : price ≠ 0)
    (hm : lowerStr mode = "sell")
    (hf : findHolding hs (upperStr name) = some ex)
    (hle : ex.qty - qty ≤ 0) :
    updateHoldings hs name qty price mode =
      .ok (deleteHolding hs (upperStr name), none) := by
  have hm0 : mode ≠ "" := lowerStr_ne_empty hm (by decide)
  simp [updateHoldings, hm, hf, hn, hq, hp, hm0, hle,
    show ("sell" : String) ≠ "buy" from by decide]

theorem updateHoldings_sell_reduce (hs : List Holding) (name : String)
    (qty price : ℚ) (mode : String) (ex : Holding)
    (hn : name ≠ "") (hq : qty ≠ 0) (hp : price ≠ 0)
    (hm : lowerStr mode = "sell")
    (hf : findHolding hs (upperStr name) = some ex)
    (hgt : ¬ ex.qty - qty ≤ 0) :
    updateHoldings hs name qty price mode =
      .ok (saveHolding hs ⟨ex.name, ex.qty - qty, ex.avg, ex.price⟩,
           some ⟨ex.name, ex.qty - qty, ex.avg, ex.price⟩) := by
  have hm0 : mode ≠ "" := lowerStr_ne_empty hm (by decide)
  simp [updateHoldings, hm, hf, hn, hq, hp, hm0, hgt,
    show ("sell" : String) ≠ "buy" from by decide]

theorem updateHoldings_sell_none (hs : List Holding) (name : String)
    (qty price : ℚ) (mode : String)
    (hn : name ≠ "") (hq : qty ≠ 0) (hp : price ≠ 0)
    (hm : lowerStr mode = "sell")
    (hf : findHolding hs (upperStr name) = none) :
    updateHoldings hs name qty price mode = .ok (hs, none) := by
  have hm0 : mode ≠ "" := lowerStr_ne_empty hm (by decide)
  simp [updateHoldings, hm, hf, hn, hq, hp, hm0,
    show ("sell" : String) ≠ "buy" from by decide]

/-! ## Helper lemmas about the two stores -/

theorem findHolding_cons (x : Holding) (t : List Holding) (n : String) :
    findHolding (x :: t) n = if x.name = n then some x else findHolding t n := by
  by_cases hx : x.name = n
  · simp [findHolding, List.find?_cons, hx]
  · simp [findHolding, List.find?_cons, hx]

theorem saveHolding_cons (x : Holding) (t : List Holding) (u : Holding) :
    saveHolding (x :: t) u =
      (if x.name = u.name then u else x) :: saveHolding t u := by
  by_cases hx : x.name = u.name
  · simp [saveHolding, hx]
  · simp [saveHolding, hx]

theorem findHolding_name {hs : List Holding} {n : String} {h : Holding}
    (hf : findHolding hs n = some h) : h.name = n := by
  have := List.find?_some hf
  exact eq_of_beq this

theorem findHolding_append_some {hs l : List Holding} {n : String} {h : Holding}
    (hf : findHolding hs n = some h) : findHolding (hs ++ l) n = some h := by
  induction hs with
  | nil => simp [findHolding] at hf
  | cons x t ih =>
    rw [findHolding_cons] at hf
    rw [List.cons_append, findHolding_cons]
    by_cases hx : x.name = n
    · rw [if_pos hx] at hf ⊢; exact hf
    · rw [if_neg hx] at hf ⊢; exact ih hf

theorem findHolding_append_none {hs l : List Holding} {n : String}
    (hf : findHolding hs n = none) : findHolding (hs ++ l) n = findHolding l n := by
  induction hs with
  | nil => rfl
  | cons x t ih =>
    rw [findHolding_cons] at hf
    rw [List.cons_append, findHolding_cons]
    by_cases hx : x.name = n
    · rw [if_pos hx] at hf; exact absurd hf (by simp)
    · rw [if_neg hx] at hf ⊢; exact ih hf

theorem findHolding_save_self {hs : List Holding} {n : String} {ex : Holding}
    (u : Holding) (hf : findHolding hs n = some ex) (hu : u.name = n) :
    findHolding (saveHolding hs u) n = some u := by
  induction hs with
  | nil => simp [findHolding] at hf
  | cons x t ih =>
    rw [findHolding_cons] at hf
    rw [saveHolding_cons, findHolding_cons]
    by_cases hx : x.name = n
    · have hxu : x.name = u.name := by rw [hx, hu]
      rw [if_pos hxu, if_pos hu]
    · have hxu : ¬ x.name = u.name := by rw [hu]; exact hx
      rw [if_neg hx] at hf
      rw [if_neg hxu, if_neg hx]
      exact ih hf

theorem findHolding_save_isSome {hs : List Holding} {n : String}
    (u : Holding) (hf : (findHolding hs n).isSome) :
    (findHolding (saveHolding hs u) n).isSome := by
  induction hs with
  | nil => simp [findHolding] at hf
  | cons x t ih =>
    rw [findHolding_cons] at hf
    rw [saveHolding_cons, findHolding_cons]
    by_cases hx : x.name = n
    · by_cases hxu : x.name = u.name
      · have hun : u.name = n := by rw [← hxu, hx]
        rw [if_pos hxu, if_pos hun]; rfl
      · rw [if_neg hxu, if_pos hx]; rfl
    · rw [if_neg hx] at hf
      by_cases hxu : x.name = u.name
      · have hun : ¬ u.name = n := by rw [← hxu]; exact hx
        rw [if_pos hxu, if_neg hun]
        exact ih hf
      · rw [if_neg hxu, if_neg hx]
        exact ih hf

theorem findOrder_setOrderStatus (os : List Order) (i : Nat) (st : String) :
    findOrder (setOrderStatus os i st) i =
      (findOrder os i).map (fun o => withStatus o st) := by
  induction os with
  | nil => rfl
  | cons o t ih =>
    by_cases h : o.oid = i
    · simp [findOrder, setOrderStatus, withStatus, List.find?_cons, h]
    · simp only [setOrderStatus, List.map_cons] at ih ⊢
      rw [if_neg (by simpa using h)]
      simp only [findOrder, List.find?_cons] at ih ⊢
      have hb : (o.oid == i) = false := by simpa using h
      rw [hb]
      exact ih

/-! ## C1: BUY aggregation formula -/

/-- C1: for an executed BUY order, an existing position with quantity `q`
and average cost `a` becomes quantity `q + qty` with average cost
`(q * a + qty * price) / (q + qty)`; with no existing position the new
position has quantity `qty` and average cost `price`. -/
theorem buy_weighted_average (hs : List Holding) (name : String)
    (qty price : ℚ) (hn : name ≠ "") (hq : qty ≠ 0) (hp : price ≠ 0) :
    (∀ ex, findHolding hs (upperStr name) = some ex →
       updateHoldings hs name qty price "buy" =
         .ok (saveHolding hs ⟨ex.name, ex.qty + qty,
                (ex.qty * ex.avg + qty * price) / (ex.qty + qty), price⟩,
              some ⟨ex.name, ex.qty + qty,
                (ex.qty * ex.avg + qty * price) / (ex.qty + qty), price⟩)) ∧
    (findHolding hs (upperStr name) = none →
       updateHoldings hs name qty price "buy" =
         .ok (hs ++ [⟨upperStr name, qty, price, price⟩],
              some ⟨upperStr name, qty, price, price⟩)) := by
  constructor
  · intro ex hf
    have hc : ex.qty * ex.avg + qty * price = ex.avg * ex.qty + price * qty := by
      ring
    rw [hc]
    exact updateHoldings_buy_existing hs name qty price "buy" ex hn hq hp
      (by decide) hf
  · intro hf
    exact updateHoldings_buy_new hs name qty price "buy" hn hq hp (by decide) hf

/-- Witness for C1 at the spec's own scenario: holding 10 @ 100, BUY 5 @ 120. -/
theorem buy_weighted_average_witness :
    updateHoldings [⟨"TCS", 10, 100, 100⟩] "TCS" 5 120 "buy" =
      .ok (saveHolding [⟨"TCS", 10, 100, 100⟩]
             ⟨"TCS", 10 + 5, (10 * 100 + 5 * 120) / (10 + 5), 120⟩,
           some ⟨"TCS", 10 + 5, (10 * 100 + 5 * 120) / (10 + 5), 120⟩) :=
  (buy_weighted_average [⟨"TCS", 10, 100, 100⟩] "TCS" 5 120
      (by decide) (by decide) (by decide)).1
    ⟨"TCS", 10, 100, 100⟩ (by decide)

/-! ## C2: SELL exceeding the held quantity -/

/-- C2 (counterexample): selling 10 out of a position holding 5 does not
leave the position unchanged and signals no error: the handler reports
success and the position is deleted outright. -/
theorem sell_oversell_counterexample :
    updateHoldings [⟨"TCS", 5, 100, 100⟩] "TCS" 10 130 "sell" =
      .ok ([], none) ∧
    ([] : List Holding) ≠ [⟨"TCS", 5, 100, 100⟩] := by
  constructor
  · rw [updateHoldings_sell_delete [⟨"TCS", 5, 100, 100⟩] "TCS" 10 130 "sell"
          ⟨"TCS", 5, 100, 100⟩ (by decide) (by decide) (by decide) (by decide)
          (by decide) (by norm_num)]
    decide
  · decide

/-- C2 (amended): SELL with no existing position leaves the store unchanged
(the condition is only logged, the call still succeeds); SELL with quantity
strictly above the held quantity does NOT leave the position unchanged — the
quantity is decremented below zero and the position is therefore deleted. -/
theorem sell_insufficient_behavior (hs : List Holding) (name : String)
    (qty price : ℚ) (hn : name ≠ "") (hq : qty ≠ 0) (hp : price ≠ 0) :
    (findHolding hs (upperStr name) = none →
       updateHoldings hs name qty price "sell" = .ok (hs, none)) ∧
    (∀ ex, findHolding hs (upperStr name) = some ex → ex.qty < qty →
       updateHoldings hs name qty price "sell" =
         .ok (deleteHolding hs (upperStr name), none)) := by
  constructor
  · intro hf
    exact updateHoldings_sell_none hs name qty price "sell" hn hq hp
      (by decide) hf
  · intro ex hf hlt
    exact updateHoldings_sell_delete hs name qty price "sell" ex hn hq hp
      (by decide) hf (by linarith)

/-- Witness for C2 (amended): selling with no position at all. -/
theorem sell_insufficient_behavior_witness :
    updateHoldings [] "TCS" 5 100 "sell" = .ok ([], none) :=
  (sell_insufficient_behavior [] "TCS" 5 100
      (by decide) (by decide) (by decide)).1 (by decide)

/-! ## C9: lastPrice on writes -/

/-- C9 (counterexample): a SELL that leaves 5 shares writes the position
with `price` still 100, not the order's price 130. -/
theorem sell_lastprice_counterexample :
    updateHoldings [⟨"TCS", 10, 100, 100⟩] "TCS" 5 130 "sell" =
      .ok ([⟨"TCS", 10 - 5, 100, 100⟩], some ⟨"TCS", 10 - 5, 100, 100⟩) ∧
    (100 : ℚ) ≠ 130 := by
  constructor
  · rw [updateHoldings_sell_reduce [⟨"TCS", 10, 100, 100⟩] "TCS" 5 130 "sell"
          ⟨"TCS", 10, 100, 100⟩ (by decide) (by decide) (by decide) (by decide)
          (by decide) (by norm_num)]
    simp [saveHolding]
  · decide

/-- C9 (amended): a BUY write sets the position's `price` to the order's
price; a SELL write leaves the position's `price` at its previous value. -/
theorem written_lastprice_policy (hs : List Holding) (name : String)
    (qty price : ℚ) (hn : name ≠ "") (hq : qty ≠ 0) (hp : price ≠ 0) :
    (∀ hs2 h, updateHoldings hs name qty price "buy" = .ok (hs2, some h) →
       h.price = price) ∧
    (∀ hs2 h ex, findHolding hs (upperStr name) = some ex →
       updateHoldings hs name qty price "sell" = .ok (hs2, some h) →
       h.price = ex.price) := by
  constructor
  · intro hs2 h heq
    cases hf : findHolding hs (upperStr name) with
    | some ex =>
      rw [updateHoldings_buy_existing hs name qty price "buy" ex hn hq hp
            (by decide) hf] at heq
      simp only [Except.ok.injEq, Prod.mk.injEq, Option.some.injEq] at heq
      rw [← heq.2]
    | none =>
      rw [updateHoldings_buy_new hs name qty price "buy" hn hq hp
            (by decide) hf] at heq
      simp only [Except.ok.injEq, Prod.mk.injEq, Option.some.injEq] at heq
      rw [← heq.2]
  · intro hs2 h ex hf heq
    by_cases hle : ex.qty - qty ≤ 0
    · rw [updateHoldings_sell_delete hs name qty price "sell" ex hn hq hp
            (by decide) hf hle] at heq
      simp at heq
    · rw [updateHoldings_sell_reduce hs name qty price "sell" ex hn hq hp
            (by decide) hf hle] at heq
      simp only [Except.ok.injEq, Prod.mk.injEq, Option.some.injEq] at heq
      rw [← heq.2]

/-- Witness for C9 (amended): BUY 10 @ 100 into an empty store writes
price 100. -/
theorem written_lastprice_policy_witness :
    Holding.price ⟨"TCS", 10, 100, 100⟩ = 100 :=
  (written_lastprice_policy [] "TCS" 10 100
      (by decide) (by decide) (by decide)).1
    [⟨"TCS", 10, 100, 100⟩] ⟨"TCS", 10, 100, 100⟩ (by decide)

/-! ## C6: aggregator failure aborts the confirm -/

/-- C6: when the holdings update throws inside `confirmOrder`, the whole
call fails with the holdings error and the state — in particular the
order's status — is completely unchanged, so an order can never become
EXECUTED with the position update skipped. -/
theorem confirm_aggregator_failure (s : ServerState) (i : Nat) (o : Order)
    (e : String) (hf : findOrder s.orders i = some o)
    (hst : o.status ≠ "executed")
    (he : updateHoldings s.holdings o.name o.qty o.price o.mode = .error e) :
    confirmOrder s i = (s, .holdingsFailed e) := by
  simp only [confirmOrder, hf]
  rw [if_neg hst, he]

/-- Witness for C6: a pending order with quantity 0 makes the aggregator
throw its validation error; the confirm leaves the state untouched. -/
theorem confirm_aggregator_failure_witness :
    confirmOrder ⟨[⟨0, "TCS", 0, 100, "buy", true, false, "pending"⟩], []⟩ 0 =
      (⟨[⟨0, "TCS", 0, 100, "buy", true, false, "pending"⟩], []⟩,
       .holdingsFailed "Invalid parameters") :=
  confirm_aggregator_failure
    ⟨[⟨0, "TCS", 0, 100, "buy", true, false, "pending"⟩], []⟩ 0
    ⟨0, "TCS", 0, 100, "buy", true, false, "pending"⟩ "Invalid parameters"
    (by decide) (by decide) (by decide)

/-! ## C10: rejecting an already-rejected order -/

/-- C10: `rejectOrder` guards only against EXECUTED orders; called on an
order whose status is already REJECTED it succeeds again, the order keeps
status REJECTED, and the holdings are untouched. -/
theorem reject_rejected_succeeds (s : ServerState) (i : Nat) (o : Order)
    (hf : findOrder s.orders i = some o) (hst : o.status = "rejected") :
    rejectOrder s i = (⟨setOrderStatus s.orders i "rejected", s.holdings⟩, .ok) ∧
    findOrder (rejectOrder s i).1.orders i = some o ∧
    (rejectOrder s i).1.holdings = s.holdings := by
  have hns : ¬ o.status = "executed" := by rw [hst]; decide
  have h1 : rejectOrder s i =
      (⟨setOrderStatus s.orders i "rejected", s.holdings⟩, .ok) := by
    simp only [rejectOrder, hf]
    rw [if_neg hns]
  refine ⟨h1, ?_, by rw [h1]⟩
  rw [h1]
  show findOrder (setOrderStatus s.orders i "rejected") i = some o
  rw [findOrder_setOrderStatus, hf]
  have hwo : withStatus o "rejected" = o := by
    cases o
    simp only [withStatus] at hst ⊢
    rw [hst]
  simp [hwo]

/-- Witness for C10: rejecting a rejected voice order a second time. -/
theorem reject_rejected_succeeds_witness :
    rejectOrder ⟨[⟨0, "TCS", 10, 100, "buy", true, false, "rejected"⟩], []⟩ 0 =
      (⟨setOrderStatus [⟨0, "TCS", 10, 100, "buy", true, false, "rejected"⟩]
          0 "rejected", []⟩, .ok) ∧
    findOrder (rejectOrder ⟨[⟨0, "TCS", 10, 100, "buy", true, false,
        "rejected"⟩], []⟩ 0).1.orders 0 =
      some ⟨0, "TCS", 10, 100, "buy", true, false, "rejected"⟩ ∧
    (rejectOrder ⟨[⟨0, "TCS", 10, 100, "buy", true, false, "rejected"⟩],
        []⟩ 0).1.holdings = [] :=
  reject_rejected_succeeds
    ⟨[⟨0, "TCS", 10, 100, "buy", true, false, "rejected"⟩], []⟩ 0
    ⟨0, "TCS", 10, 100, "buy", true, false, "rejected"⟩ (by decide) rfl

/-! ## C7: placeOrder status policy and partial failure -/

/-- C7: the persisted order's status is a function of its origin flags —
voice/assistant orders are saved PENDING with no holdings effect, manual
orders are saved EXECUTED with a synchronous holdings update — and when the
manual-path update throws, the order stays saved as EXECUTED while the call
returns the partial-failure warning instead of rolling back. -/
theorem place_order_policy (s : ServerState) (i : Nat) (name : String)
    (qty price : ℚ) (mode : String) :
    (∀ v sim, (v || sim) = true →
       placeOrder s i name qty price mode v sim =
         (⟨s.orders ++ [⟨i, name, qty, price, mode, v, sim, "pending"⟩],
            s.holdings⟩, .ok true)) ∧
    (∀ e, updateHoldings s.holdings name qty price mode = .error e →
       placeOrder s i name qty price mode false false =
         (⟨s.orders ++ [⟨i, name, qty, price, mode, false, false, "executed"⟩],
            s.holdings⟩, .warn e)) ∧
    (∀ r, updateHoldings s.holdings name qty price mode = .ok r →
       placeOrder s i name qty price mode false false =
         (⟨s.orders ++ [⟨i, name, qty, price, mode, false, false, "executed"⟩],
            r.1⟩, .ok false)) := by
  refine ⟨?_, ?_, ?_⟩
  · intro v sim hv
    simp [placeOrder, hv]
  · intro e he
    simp [placeOrder, he]
  · intro r hr
    simp [placeOrder, hr]

/-- Witness for C7: a voice order is persisted PENDING without touching
holdings. -/
theorem place_order_policy_witness :
    placeOrder ⟨[], []⟩ 0 "TCS" 10 100 "buy" true false =
      (⟨[] ++ [⟨0, "TCS", 10, 100, "buy", true, false, "pending"⟩], []⟩,
       .ok true) :=
  (place_order_policy ⟨[], []⟩ 0 "TCS" 10 100 "buy").1 true false rfl

/-! ## C5: confirming applies the effect exactly once -/

/-- With valid parameters and a buy/sell mode the aggregator cannot throw,
and after a BUY the instrument's holding is guaranteed to exist (so the
confirm handler's post-update verification always passes). -/
theorem updateHoldings_ok (hs : List Holding) (name : String) (qty price : ℚ)
    (mode : String) (hn : name ≠ "") (hq : qty ≠ 0) (hp : price ≠ 0)
    (hm : lowerStr mode = "buy" ∨ lowerStr mode = "sell") :
    ∃ r, updateHoldings hs name qty price mode = .ok r ∧
      (lowerStr mode = "buy" → (findHolding r.1 (upperStr name)).isSome) := by
  rcases hm with hb | hsell
  · cases hf : findHolding hs (upperStr name) with
    | some ex =>
      refine ⟨_, updateHoldings_buy_existing hs name qty price mode ex
        hn hq hp hb hf, fun _ => ?_⟩
      have hex : ex.name = upperStr name := findHolding_name hf
      rw [findHolding_save_self
        (⟨ex.name, ex.qty + qty,
          (ex.avg * ex.qty + price * qty) / (ex.qty + qty), price⟩ : Holding)
        hf hex]
      rfl
    | none =>
      refine ⟨_, updateHoldings_buy_new hs name qty price mode
        hn hq hp hb hf, fun _ => ?_⟩
      rw [findHolding_append_none hf]
      simp [findHolding]
  · cases hf : findHolding hs (upperStr name) with
    | some ex =>
      by_cases hle : ex.qty - qty ≤ 0
      · refine ⟨_, updateHoldings_sell_delete hs name qty price mode ex
          hn hq hp hsell hf hle, fun hb => ?_⟩
        rw [hsell] at hb
        exact absurd hb (by decide)
      · refine ⟨_, updateHoldings_sell_reduce hs name qty price mode ex
          hn hq hp hsell hf hle, fun hb => ?_⟩
        rw [hsell] at hb
        exact absurd hb (by decide)
    | none =>
      refine ⟨_, updateHoldings_sell_none hs name qty price mode
        hn hq hp hsell hf, fun hb => ?_⟩
      rw [hsell] at hb
      exact absurd hb (by decide)

/-- C5: for a PENDING order with well-formed fields, the first
`confirmOrder` runs the aggregator once on the holdings and marks the order
EXECUTED; the second call on the very same id answers AlreadyExecuted and
changes nothing at all. -/
theorem confirm_exactly_once (s : ServerState) (i : Nat) (o : Order)
    (hf : findOrder s.orders i = some o) (hp0 : o.status = "pending")
    (hn : o.name ≠ "") (hq : o.qty ≠ 0) (hpr : o.price ≠ 0)
    (hm : lowerStr o.mode = "buy" ∨ lowerStr o.mode = "sell") :
    ∃ r, updateHoldings s.holdings o.name o.qty o.price o.mode = .ok r ∧
      confirmOrder s i = (⟨setOrderStatus s.orders i "executed", r.1⟩, .ok) ∧
      confirmOrder (confirmOrder s i).1 i =
        ((confirmOrder s i).1, .alreadyExecuted) := by
  obtain ⟨r, hr, hverify⟩ :=
    updateHoldings_ok s.holdings o.name o.qty o.price o.mode hn hq hpr hm
  have hns : ¬ o.status = "executed" := by rw [hp0]; decide
  have hguard : ¬ (lowerStr o.mode = "buy" ∧
      findHolding r.1 (upperStr o.name) = none) := by
    rintro ⟨hb, hnone⟩
    have := hverify hb
    rw [hnone] at this
    exact absurd this (by decide)
  have h1 : confirmOrder s i =
      (⟨setOrderStatus s.orders i "executed", r.1⟩, .ok) := by
    simp only [confirmOrder, hf]
    rw [if_neg hns, hr]
    simp only [if_neg hguard]
  refine ⟨r, hr, h1, ?_⟩
  rw [h1]
  show confirmOrder ⟨setOrderStatus s.orders i "executed", r.1⟩ i = _
  have h2 : findOrder (setOrderStatus s.orders i "executed") i =
      some (withStatus o "executed") := by
    rw [findOrder_setOrderStatus, hf]
    rfl
  simp only [confirmOrder, h2]
  simp [withStatus]

/-- Witness for C5 at the spec's scenario: VOICE BUY 10 @ 50 for INFY,
confirmed once then confirmed again. -/
theorem confirm_exactly_once_witness :
    ∃ r, updateHoldings [] "INFY" 10 50 "buy" = .ok r ∧
      confirmOrder ⟨[⟨0, "INFY", 10, 50, "buy", true, false, "pending"⟩], []⟩ 0 =
        (⟨setOrderStatus [⟨0, "INFY", 10, 50, "buy", true, false, "pending"⟩]
            0 "executed", r.1⟩, .ok) ∧
      confirmOrder (confirmOrder ⟨[⟨0, "INFY", 10, 50, "buy", true, false,
          "pending"⟩], []⟩ 0).1 0 =
        ((confirmOrder ⟨[⟨0, "INFY", 10, 50, "buy", true, false,
            "pending"⟩], []⟩ 0).1, .alreadyExecuted) :=
  confirm_exactly_once
    ⟨[⟨0, "INFY", 10, 50, "buy", true, false, "pending"⟩], []⟩ 0
    ⟨0, "INFY", 10, 50, "buy", true, false, "pending"⟩
    (by decide) rfl (by decide) (by decide) (by decide) (Or.inl (by decide))

/-! ## C4: the order status state machine -/

theorem findOrder_cons (a : Order) (t : List Order) (i : Nat) :
    findOrder (a :: t) i = if a.oid = i then some a else findOrder t i := by
  by_cases ha : a.oid = i
  · simp [findOrder, List.find?_cons, ha]
  · simp [findOrder, List.find?_cons, ha]

theorem findOrder_unique {os : List Order} {i : Nat} {o : Order}
    (hu : List.Pairwise (fun a b => a.oid ≠ b.oid) os)
    (hf : findOrder os i = some o) :
    ∀ x ∈ os, x.oid = i → x = o := by
  induction os with
  | nil => intro x hx _; exact absurd hx (List.not_mem_nil x)
  | cons a t ih =>
    intro x hx hxi
    rw [findOrder_cons] at hf
    by_cases hai : a.oid = i
    · rw [if_pos hai] at hf
      cases hf
      rcases List.mem_cons.mp hx with rfl | hxt
      · rfl
      · have hne := (List.pairwise_cons.mp hu).1 x hxt
        exact absurd (by rw [hai, hxi]) hne
    · rw [if_neg hai] at hf
      rcases List.mem_cons.mp hx with rfl | hxt
      · exact absurd hxi hai
      · exact ih (List.pairwise_cons.mp hu).2 hf x hxt hxi

theorem forall₂_map_of_mem {α : Type} {R : α → α → Prop} {g : α → α}
    {l : List α} (h : ∀ x ∈ l, R x (g x)) : List.Forall₂ R l (l.map g) := by
  induction l with
  | nil => exact List.Forall₂.nil
  | cons a t ih =>
    rw [List.map_cons]
    exact List.Forall₂.cons (h a (List.mem_cons_self a t))
      (ih fun x hx => h x (List.mem_cons_of_mem a hx))

/-- The confirm handler either leaves the orders untouched or sets the
status of a non-EXECUTED order it found to EXECUTED. -/
theorem confirm_orders_cases (s : ServerState) (i : Nat) :
    (confirmOrder s i).1.orders = s.orders ∨
    (∃ o, findOrder s.orders i = some o ∧ o.status ≠ "executed" ∧
      (confirmOrder s i).1.orders = setOrderStatus s.orders i "executed") := by
  unfold confirmOrder
  cases hf : findOrder s.orders i with
  | none => left; rfl
  | some o =>
    dsimp only
    by_cases hst : o.status = "executed"
    · rw [if_pos hst]; left; rfl
    · rw [if_neg hst]
      cases hup : updateHoldings s.holdings o.name o.qty o.price o.mode with
      | error e => left; rfl
      | ok r =>
        dsimp only
        by_cases hg : lowerStr o.mode = "buy" ∧
            findHolding r.1 (upperStr o.name) = none
        · rw [if_pos hg]; left; rfl
        · rw [if_neg hg]; right; exact ⟨o, rfl, hst, rfl⟩

/-- The reject handler either leaves the orders untouched or sets the
status of a non-EXECUTED order it found to REJECTED. -/
theorem reject_orders_cases (s : ServerState) (i : Nat) :
    (rejectOrder s i).1.orders = s.orders ∨
    (∃ o, findOrder s.orders i = some o ∧ o.status ≠ "executed" ∧
      (rejectOrder s i).1.orders = setOrderStatus s.orders i "rejected") := by
  unfold rejectOrder
  cases hf : findOrder s.orders i with
  | none => left; rfl
  | some o =>
    dsimp only
    by_cases hst : o.status = "executed"
    · rw [if_pos hst]; left; rfl
    · rw [if_neg hst]; right; exact ⟨o, rfl, hst, rfl⟩

/-- C4 (amended): under the store's unique-id invariant, every status
change made by `confirmOrder` or `rejectOrder` moves an order into EXECUTED
or REJECTED from a non-EXECUTED state, and EXECUTED is terminal; REJECTED
is NOT terminal (see the counterexample: confirm accepts a REJECTED
order). -/
theorem order_status_transitions (s : ServerState) (i : Nat)
    (hu : List.Pairwise (fun a b => a.oid ≠ b.oid) s.orders) :
    List.Forall₂ (fun o o2 => o2.oid = o.oid ∧ statusStep o.status o2.status)
      s.orders (confirmOrder s i).1.orders ∧
    List.Forall₂ (fun o o2 => o2.oid = o.oid ∧ statusStep o.status o2.status)
      s.orders (rejectOrder s i).1.orders := by
  have hrefl : List.Forall₂
      (fun o o2 => o2.oid = o.oid ∧ statusStep o.status o2.status)
      s.orders s.orders :=
    List.forall₂_same.mpr (fun x _ => ⟨rfl, Or.inl rfl⟩)
  constructor
  · rcases confirm_orders_cases s i with hc | ⟨o, hf, hst, hc⟩
    · rw [hc]; exact hrefl
    · rw [hc]
      apply forall₂_map_of_mem
      intro x _
      by_cases hxi : x.oid = i
      · rw [if_pos (by simpa using hxi)]
        refine ⟨rfl, ?_⟩
        by_cases hxe : x.status = "executed"
        · exact Or.inl hxe.symm
        · exact Or.inr ⟨hxe, Or.inl rfl⟩
      · rw [if_neg (by simpa using hxi)]
        exact ⟨rfl, Or.inl rfl⟩
  · rcases reject_orders_cases s i with hc | ⟨o, hf, hst, hc⟩
    · rw [hc]; exact hrefl
    · rw [hc]
      apply forall₂_map_of_mem
      intro x hx
      by_cases hxi : x.oid = i
      · have hxo : x = o := findOrder_unique hu hf x hx hxi
        rw [if_pos (by simpa using hxi)]
        exact ⟨rfl, Or.inr ⟨by rw [hxo]; exact hst, Or.inr rfl⟩⟩
      · rw [if_neg (by simpa using hxi)]
        exact ⟨rfl, Or.inl rfl⟩

/-- Witness for C4 (amended) on a one-order store. -/
theorem order_status_transitions_witness :
    List.Forall₂ (fun o o2 => o2.oid = o.oid ∧ statusStep o.status o2.status)
      ([⟨0, "TCS", 10, 100, "buy", true, false, "pending"⟩] : List Order)
      (confirmOrder ⟨[⟨0, "TCS", 10, 100, "buy", true, false, "pending"⟩],
        []⟩ 0).1.orders ∧
    List.Forall₂ (fun o o2 => o2.oid = o.oid ∧ statusStep o.status o2.status)
      ([⟨0, "TCS", 10, 100, "buy", true, false, "pending"⟩] : List Order)
      (rejectOrder ⟨[⟨0, "TCS", 10, 100, "buy", true, false, "pending"⟩],
        []⟩ 0).1.orders :=
  order_status_transitions
    ⟨[⟨0, "TCS", 10, 100, "buy", true, false, "pending"⟩], []⟩ 0 (by simp)

/-- C4 (counterexample): REJECTED is not terminal — confirming a REJECTED
voice order succeeds and moves it to EXECUTED (and even applies the
position effect). -/
theorem rejected_not_terminal_counterexample :
    confirmOrder ⟨[⟨0, "TCS", 10, 100, "buy", true, false, "rejected"⟩], []⟩ 0 =
      (⟨[⟨0, "TCS", 10, 100, "buy", true, false, "executed"⟩],
        [⟨"TCS", 10, 100, 100⟩]⟩, .ok) := by decide

/-! ## C8: repair is idempotent -/

theorem repairStep_noop (acc : List Holding × Nat) (o : Order)
    (h : repairSettled acc.1 o) : repairStep acc o = acc := by
  unfold repairStep
  rcases h with hsome | hinv
  · cases hff : findHolding acc.1 (upperStr o.name) with
    | some _ => rfl
    | none => rw [hff] at hsome; exact absurd hsome (by decide)
  · cases hff : findHolding acc.1 (upperStr o.name) with
    | some _ => rfl
    | none => rw [updateHoldings_invalid acc.1 o.name o.qty o.price o.mode hinv]

theorem repairStep_buy_shape (acc : List Holding × Nat) (o : Order)
    (hm : lowerStr o.mode = "buy") :
    repairStep acc o = acc ∨
    (∃ u, (repairStep acc o).1 = saveHolding acc.1 u) ∨
    (∃ u, (repairStep acc o).1 = acc.1 ++ [u]) := by
  unfold repairStep
  cases hff : findHolding acc.1 (upperStr o.name) with
  | some _ => left; rfl
  | none =>
    by_cases hinv : invalidParams o.name o.qty o.price o.mode
    · rw [updateHoldings_invalid acc.1 o.name o.qty o.price o.mode hinv]
      left; rfl
    · simp only [invalidParams, not_or] at hinv
      obtain ⟨hn, hq, hp, _⟩ := hinv
      rw [updateHoldings_buy_new acc.1 o.name o.qty o.price o.mode hn hq hp
        hm hff]
      right; right; exact ⟨_, rfl⟩

theorem repairStep_preserves_isSome (acc : List Holding × Nat) (o2 : Order)
    (n : String) (hm : lowerStr o2.mode = "buy")
    (h : (findHolding acc.1 n).isSome) :
    (findHolding (repairStep acc o2).1 n).isSome := by
  rcases repairStep_buy_shape acc o2 hm with heq | ⟨u, heq⟩ | ⟨u, heq⟩
  · rw [heq]; exact h
  · rw [heq]; exact findHolding_save_isSome u h
  · rw [heq]
    obtain ⟨x, hx⟩ := Option.isSome_iff_exists.mp h
    rw [findHolding_append_some hx]
    rfl

theorem repairStep_settles (acc : List Holding × Nat) (o : Order)
    (hm : lowerStr o.mode = "buy") :
    repairSettled (repairStep acc o).1 o := by
  by_cases hinv : invalidParams o.name o.qty o.price o.mode
  · exact Or.inr hinv
  · cases hff : findHolding acc.1 (upperStr o.name) with
    | some u =>
      left
      rw [repairStep_noop acc o (Or.inl (by rw [hff]; rfl)), hff]
      rfl
    | none =>
      simp only [invalidParams, not_or] at hinv
      obtain ⟨hn, hq, hp, _⟩ := hinv
      left
      unfold repairStep
      rw [hff]
      rw [updateHoldings_buy_new acc.1 o.name o.qty o.price o.mode hn hq hp
        hm hff]
      dsimp only
      rw [findHolding_append_none hff]
      simp [findHolding]

theorem fold_preserves_settled (L : List Order) :
    ∀ acc : List Holding × Nat, ∀ o : Order,
      (∀ x ∈ L, lowerStr x.mode = "buy") → repairSettled acc.1 o →
      repairSettled (L.foldl repairStep acc).1 o := by
  induction L with
  | nil => intro acc o _ h; exact h
  | cons a t ih =>
    intro acc o hmL h
    rw [List.foldl_cons]
    apply ih _ o (fun x hx => hmL x (List.mem_cons_of_mem a hx))
    rcases h with hsome | hinv
    · exact Or.inl (repairStep_preserves_isSome acc a _
        (hmL a (List.mem_cons_self a t)) hsome)
    · exact Or.inr hinv

theorem fold_settles (L : List Order) :
    ∀ acc : List Holding × Nat, (∀ x ∈ L, lowerStr x.mode = "buy") →
      ∀ o ∈ L, repairSettled (L.foldl repairStep acc).1 o := by
  induction L with
  | nil => intro acc _ o ho; exact absurd ho (List.not_mem_nil o)
  | cons a t ih =>
    intro acc hmL o ho
    rw [List.foldl_cons]
    rcases List.mem_cons.mp ho with rfl | hot
    · exact fold_preserves_settled t _ o
        (fun x hx => hmL x (List.mem_cons_of_mem _ hx))
        (repairStep_settles acc o (hmL o (List.mem_cons_self o t)))
    · exact ih _ (fun x hx => hmL x (List.mem_cons_of_mem _ hx)) o hot

theorem fold_noop (L : List Order) :
    ∀ (hs : List Holding) (c : Nat), (∀ o ∈ L, repairSettled hs o) →
      L.foldl repairStep (hs, c) = (hs, c) := by
  induction L with
  | nil => intro hs c _; rfl
  | cons a t ih =>
    intro hs c h
    rw [List.foldl_cons, repairStep_noop (hs, c) a (h a (List.mem_cons_self a t))]
    exact ih hs c (fun o ho => h o (List.mem_cons_of_mem a ho))

theorem mem_executedBuyOrders {os : List Order} {x : Order}
    (hx : x ∈ executedBuyOrders os) :
    x.status = "executed" ∧ lowerStr x.mode = "buy" := by
  simp only [executedBuyOrders, List.mem_filter, isExecutedBuy,
    Bool.and_eq_true, beq_iff_eq] at hx
  exact hx.2

/-- C8: `repairHoldings` is idempotent — running it again right after a run
changes nothing and reports a fixed count of 0, because every executed BUY
order's instrument either already has a holding after the first run or is
rejected by the aggregator identically in both runs. -/
theorem repair_idempotent (s : ServerState) :
    repairHoldings (repairHoldings s).1 = ((repairHoldings s).1, 0) := by
  have hmL : ∀ x ∈ executedBuyOrders s.orders, lowerStr x.mode = "buy" :=
    fun x hx => (mem_executedBuyOrders hx).2
  have hsettled :=
    fold_settles (executedBuyOrders s.orders) (s.holdings, 0) hmL
  simp only [repairHoldings]
  rw [fold_noop (executedBuyOrders s.orders) _ 0 hsettled]

/-! ## C3: what the repair replay actually reconstructs -/

/-- C3 (counterexample): with two executed BUYs for TCS (10 @ 100 then
5 @ 120) and the holding missing, the incremental aggregator fold from
empty state yields quantity 15 at the weighted average, while
`/repair-holdings` applies only the first order — it reconstructs
quantity 10 @ 100, so the two computations disagree. -/
theorem repair_not_full_replay_counterexample :
    (repairHoldings ⟨[⟨0, "TCS", 10, 100, "buy", false, false, "executed"⟩,
        ⟨1, "TCS", 5, 120, "buy", false, false, "executed"⟩], []⟩).1.holdings =
      [⟨"TCS", 10, 100, 100⟩] ∧
    foldExecuted [⟨0, "TCS", 10, 100, "buy", false, false, "executed"⟩,
        ⟨1, "TCS", 5, 120, "buy", false, false, "executed"⟩] =
      [⟨"TCS", 15, (10 * 100 + 5 * 120) / 15, 120⟩] ∧
    [(⟨"TCS", 10, 100, 100⟩ : Holding)] ≠
      [⟨"TCS", 15, (10 * 100 + 5 * 120) / 15, 120⟩] := by
  refine ⟨by decide, ?_, ?_⟩
  · have h1 : applyExecuted []
        ⟨0, "TCS", 10, 100, "buy", false, false, "executed"⟩ =
        [⟨"TCS", 10, 100, 100⟩] := by decide
    have h2 : applyExecuted [⟨"TCS", 10, 100, 100⟩]
        ⟨1, "TCS", 5, 120, "buy", false, false, "executed"⟩ =
        [⟨"TCS", 15, (10 * 100 + 5 * 120) / 15, 120⟩] := by
      simp only [applyExecuted]
      rw [updateHoldings_buy_existing [⟨"TCS", 10, 100, 100⟩] "TCS" 5 120
        "buy" ⟨"TCS", 10, 100, 100⟩ (by decide) (by decide) (by decide)
        (by decide) (by decide)]
      norm_num [saveHolding]
    simp only [foldExecuted, List.foldl_cons, List.foldl_nil]
    rw [h1, h2]
  · intro h
    have := List.head_eq_of_cons_eq h
    rw [Holding.mk.injEq] at this
    have hq := this.2.1
    norm_num at hq

/-- C3 (amended): when an instrument's holding is missing,
`/repair-holdings` does not replay the instrument's full executed-order
history — it applies exactly the FIRST executed BUY order (later executed
orders are skipped once the holding exists, and SELLs are never selected),
so the reconstructed position is the single-order position
`(qty, avg) = (first.qty, first.price)` and the reported fixed count
for that instrument is 1. -/
theorem repair_applies_first_buy_only (s : ServerState) (n : String)
    (o : Order) (rest : List Order)
    (hL : executedBuyOrders s.orders = o :: rest)
    (hname : ∀ x ∈ executedBuyOrders s.orders, x.name = n)
    (hmiss : findHolding s.holdings (upperStr n) = none)
    (hn : o.name ≠ "") (hq : o.qty ≠ 0) (hp : o.price ≠ 0) :
    (repairHoldings s).1.holdings =
      s.holdings ++ [⟨upperStr n, o.qty, o.price, o.price⟩] ∧
    (repairHoldings s).2 = 1 := by
  have hoL : o ∈ executedBuyOrders s.orders := by
    rw [hL]; exact List.mem_cons_self o rest
  have hon : o.name = n := hname o hoL
  have hom : lowerStr o.mode = "buy" := (mem_executedBuyOrders hoL).2
  have hmiss0 : findHolding s.holdings (upperStr o.name) = none := by
    rw [hon]; exact hmiss
  have step1 : repairStep (s.holdings, 0) o =
      (s.holdings ++ [⟨upperStr n, o.qty, o.price, o.price⟩], 1) := by
    unfold repairStep
    dsimp only
    rw [hmiss0]
    rw [updateHoldings_buy_new s.holdings o.name o.qty o.price o.mode
      hn hq hp hom hmiss0]
    rw [hon]
  have hrest : ∀ x ∈ rest,
      repairSettled (s.holdings ++ [⟨upperStr n, o.qty, o.price, o.price⟩]) x := by
    intro x hx
    have hxL : x ∈ executedBuyOrders s.orders := by
      rw [hL]; exact List.mem_cons_of_mem o hx
    have hxn : x.name = n := hname x hxL
    left
    rw [hxn, findHolding_append_none hmiss]
    simp [findHolding]
  simp only [repairHoldings, hL]
  rw [List.foldl_cons, step1, fold_noop rest _ 1 hrest]
  exact ⟨rfl, rfl⟩

/-- Witness for C3 (amended) on the two-BUY store of the counterexample. -/
theorem repair_applies_first_buy_only_witness :
    (repairHoldings ⟨[⟨0, "TCS", 10, 100, "buy", false, false, "executed"⟩,
        ⟨1, "TCS", 5, 120, "buy", false, false, "executed"⟩], []⟩).1.holdings =
      [] ++ [⟨upperStr "TCS", 10, 100, 100⟩] ∧
    (repairHoldings ⟨[⟨0, "TCS", 10, 100, "buy", false, false, "executed"⟩,
        ⟨1, "TCS", 5, 120, "buy", false, false, "executed"⟩], []⟩).2 = 1 :=
  repair_applies_first_buy_only
    ⟨[⟨0, "TCS", 10, 100, "buy", false, false, "executed"⟩,
      ⟨1, "TCS", 5, 120, "buy", false, false, "executed"⟩], []⟩ "TCS"
    ⟨0, "TCS", 10, 100, "buy", false, false, "executed"⟩
    [⟨1, "TCS", 5, 120, "buy", false, false, "executed"⟩]
    (by decide) (by decide) (by decide) (by decide) (by decide) (by decide)
